import Mathlib

/-!
Shallow embedding of the mini-cassandra distributed key-value store:
the consistent hash ring (package hashring), the coordinator/router
(package cluster), the local store (package kv), the client-facing GET
handler (package api) and the bootstrap cluster-list parser (package main).

Machine integers are modelled as Nat with explicit reduction modulo 2^32
where the Go code works on uint32.  Network interactions of the router are
modelled by explicit environment functions giving the outcome at each peer.
The unbounded for-loop of Ring.GetReplicasForKey is modelled with explicit
fuel: a result of none means the loop did not finish within the given fuel.
-/

namespace MiniCassandra

/-- UTF-8 encoding of a single Unicode code point, byte values as Nat.
This is the byte sequence Go produces for one rune in a string. -/
def utf8EncodeCharNat (c : Nat) : List Nat :=
  if c < 0x80 then [c]
  else if c < 0x800 then [0xC0 + c / 0x40, 0x80 + c % 0x40]
  else if c < 0x10000 then
    [0xE0 + c / 0x1000, 0x80 + (c / 0x40) % 0x40, 0x80 + c % 0x40]
  else
    [0xF0 + c / 0x40000, 0x80 + (c / 0x1000) % 0x40,
     0x80 + (c / 0x40) % 0x40, 0x80 + c % 0x40]

/-- The UTF-8 bytes of a string, as Go's conversion of a string to a byte
slice produces them. -/
def utf8Bytes (s : String) : List Nat :=
  s.data.flatMap (fun c => utf8EncodeCharNat c.toNat)

/-- FNV-1a 32-bit without the final byte: one step folds one byte, xor then
multiply by the FNV prime, reduced modulo 2^32 (uint32 arithmetic). -/
def fnvStep (h b : Nat) : Nat := ((h ^^^ b) * 16777619) % 4294967296

/-- hashFn from hashring: a 32-bit FNV-1a hash of the UTF-8 bytes of the
string (fnv.New32a; Write; Sum32 in the source). -/
def hashFn (key : String) : Nat :=
  (utf8Bytes key).foldl fnvStep 2166136261

/-- NodeInfo from hashring: NodeID and host:port. -/
structure NodeInfo where
  id : String
  host : String
deriving DecidableEq

/-- Ring state: virtual-node count, the slot-hash sequence, and the
hash-to-node map.  The Go map is modelled as an association list with
distinct keys (mapInsert keeps it that way); its length is Go's len. -/
structure Ring where
  vNodes : Nat
  hashes : List Nat
  hashMap : List (Nat × NodeInfo)
deriving DecidableEq

/-- Go map update m[h] = n: the new binding replaces any binding of h. -/
def mapInsert (m : List (Nat × NodeInfo)) (h : Nat) (n : NodeInfo) :
    List (Nat × NodeInfo) :=
  (h, n) :: m.filter (fun p => p.1 != h)

/-- Go map read m[h], none when absent (the source then sees the zero
NodeInfo). -/
def mapLookup (m : List (Nat × NodeInfo)) (h : Nat) : Option NodeInfo :=
  (m.find? (fun p => p.1 == h)).map (fun p => p.2)

/-- One iteration of the loop in Ring.addNodeNoLock: hash the virtual key
id#i, append the hash to the slot sequence and bind it in the map. -/
def addSlot (n : NodeInfo) (r : Ring) (i : Nat) : Ring :=
  { r with
    hashes := r.hashes ++ [hashFn (n.id ++ "#" ++ toString i)],
    hashMap := mapInsert r.hashMap (hashFn (n.id ++ "#" ++ toString i)) n }

/-- Ring.addNodeNoLock: insert vNodes virtual slots for node n. -/
def Ring.addNodeNoLock (r : Ring) (n : NodeInfo) : Ring :=
  (List.range r.vNodes).foldl (addSlot n) r

/-- Insert a value into an ascending list, keeping it ascending. -/
def insertSorted (x : Nat) : List Nat → List Nat
  | [] => [x]
  | y :: ys => if x ≤ y then x :: y :: ys else y :: insertSorted x ys

/-- Ascending insertion sort on Nat.  Duplicates are kept.  For a total
order on Nat every sorting algorithm yields this same list, so this models
the unstable sort.Slice of the source exactly. -/
def sortNat (l : List Nat) : List Nat := l.foldr insertSorted []

/-- Ring.sortHashes: sort the slot sequence ascending (sort.Slice). -/
def Ring.sortHashes (r : Ring) : Ring :=
  { r with hashes := sortNat r.hashes }

/-- NewRing: add every node's virtual slots, then sort. -/
def NewRing (nodes : List NodeInfo) (vNodes : Nat) : Ring :=
  Ring.sortHashes
    (nodes.foldl (fun r n => r.addNodeNoLock n)
      { vNodes := vNodes, hashes := [], hashMap := [] })

/-- sort.Search over the sorted slot sequence: the least index whose hash
is at least h (this is what the binary search in the source computes on a
sorted slice, per sort.Search's contract); hashes.length when none is. -/
def searchGE (hashes : List Nat) (h : Nat) : Nat :=
  hashes.findIdx (fun x => decide (h ≤ x))

/-- Start position of the replica walk: the binary-search result, wrapped
to 0 when the search ran off the end. -/
def initIdx (hashes : List Nat) (h : Nat) : Nat :=
  if searchGE hashes h = hashes.length then 0 else searchGE hashes h

/-- State of the replica-walk loop in Ring.GetReplicasForKey: the
accumulated replicas, the set of seen node ids (a duplicate-free list),
and the current slot index. -/
structure WalkState where
  replicas : List NodeInfo
  seen : List String
  idx : Nat
deriving DecidableEq

/-- One iteration body of the for-loop in Ring.GetReplicasForKey: read
the slot at idx (a missing map binding yields Go's zero NodeInfo), append
its node when the node id is unseen, and advance idx with wrap-around. -/
def walkStep (hashes : List Nat) (hm : List (Nat × NodeInfo))
    (s : WalkState) : WalkState :=
  let node := (mapLookup hm (hashes.getD s.idx 0)).getD { id := "", host := "" }
  if node.id ∈ s.seen then
    { s with idx := (s.idx + 1) % hashes.length }
  else
    { replicas := s.replicas ++ [node], seen := node.id :: s.seen,
      idx := (s.idx + 1) % hashes.length }

/-- The for-loop of Ring.GetReplicasForKey, with fuel.  Each step runs
walkStep and then breaks out when the seen-id count equals the size of
the hash-to-node map.  none means the fuel ran out before the loop ended;
the loop of the source has no other bound. -/
def walk (hashes : List Nat) (hm : List (Nat × NodeInfo)) (rFactor : Nat) :
    Nat → WalkState → Option (List NodeInfo)
  | 0, _ => none
  | fuel+1, s =>
    if s.replicas.length < rFactor then
      if (walkStep hashes hm s).seen.length = hm.length then
        some (walkStep hashes hm s).replicas
      else walk hashes hm rFactor fuel (walkStep hashes hm s)
    else some s.replicas

/-- Ring.GetReplicasForKey: nil on an empty ring or nonpositive rFactor;
otherwise clamp rFactor to the slot count (min of the two, the source
writes the clamp as an if) and run the walk from the search position of
the key hash. -/
def Ring.GetReplicasForKey (r : Ring) (key : String) (rFactor : Int)
    (fuel : Nat) : Option (List NodeInfo) :=
  if r.hashes.length = 0 ∨ rFactor ≤ 0 then some []
  else
    walk r.hashes r.hashMap (min rFactor.toNat r.hashes.length) fuel
      { replicas := [], seen := [], idx := initIdx r.hashes (hashFn key) }

/-- Local store state (package kv): the Go map modelled as an association
list; Get observes the first binding, Put and Delete keep keys unique. -/
abbrev Store := List (String × String)

/-- Store.Get: map read, none when absent. -/
def Store.Get : Store → String → Option String
  | [], _ => none
  | (k', v) :: rest, k => if k' = k then some v else Store.Get rest k

/-- Store.Put: map write, replacing any binding of the key. -/
def Store.Put (s : Store) (key value : String) : Store :=
  (key, value) :: s.filter (fun p => p.1 != key)

/-- Store.Delete: map delete, removing the binding of the key if any. -/
def Store.Delete (s : Store) (key : String) : Store :=
  s.filter (fun p => p.1 != key)

/-- Store.Keys: the currently present keys. -/
def Store.Keys (s : Store) : List String :=
  s.map (fun p => p.1)

/-- Outcome of the internal replica GET issued by Router.Get to one peer:
either a transport failure (httpClient.Get error; an unparsable URL skips
the peer the same way) or an HTTP response with status and body. -/
inductive FetchResult where
  | transportErr : FetchResult
  | resp : Nat → String → FetchResult
deriving DecidableEq

/-- Outcome of the internal replica PUT or DELETE issued by the router to
one peer: a transport failure or an HTTP response status. -/
inductive PostResult where
  | transportErr : PostResult
  | resp : Nat → PostResult
deriving DecidableEq

/-- A per-replica PUT outcome the source records as an error: a transport
failure, or a response with status at least 300. -/
def postFailed : PostResult → Bool
  | .transportErr => true
  | .resp status => 300 ≤ status

/-- The loop of Router.Get over the replica list.  The network is the
fetch environment giving each peer's answer.  A local replica (id equal
to selfId) reads the local store and returns on a hit; a remote replica
returns the response body on a status below 300; transport errors, 404
and other statuses of at least 300 all fall through to the next replica.
The triple mirrors the Go return (value, found, error). -/
def Router.GetLoop (selfId : String) (store : Store)
    (fetch : NodeInfo → FetchResult) (key : String) :
    List NodeInfo → String × Bool × Option String
  | [] => ("", false, none)
  | node :: rest =>
    if node.id = selfId then
      match Store.Get store key with
      | some val => (val, true, none)
      | none => Router.GetLoop selfId store fetch key rest
    else
      match fetch node with
      | .transportErr => Router.GetLoop selfId store fetch key rest
      | .resp status body =>
        if status = 404 then Router.GetLoop selfId store fetch key rest
        else if 300 ≤ status then Router.GetLoop selfId store fetch key rest
        else (body, true, none)

/-- Router.Get on an already-resolved replica list (the source obtains it
from ring.GetReplicasForKey): error on an empty list, otherwise the walk
over the replicas. -/
def Router.Get (selfId : String) (store : Store)
    (fetch : NodeInfo → FetchResult) (key : String)
    (replicas : List NodeInfo) : String × Bool × Option String :=
  if replicas.length = 0 then ("", false, some "no replicas for key")
  else Router.GetLoop selfId store fetch key replicas

/-- The loop of Router.Put over the replica list, returning the local
store after the loop and the accumulated per-replica error messages in
replica order.  A local replica gets an unconditional local Put; a remote
replica records an error on a transport failure or a status of at least
300 and always continues. -/
def Router.PutLoop (selfId : String) (post : NodeInfo → PostResult)
    (key value : String) : List NodeInfo → Store → Store × List String
  | [], store => (store, [])
  | node :: rest, store =>
    if node.id = selfId then
      Router.PutLoop selfId post key value rest (Store.Put store key value)
    else
      match post node with
      | .transportErr =>
        ((Router.PutLoop selfId post key value rest store).1,
         ("remote PUT to " ++ node.host ++ " failed")
           :: (Router.PutLoop selfId post key value rest store).2)
      | .resp status =>
        if 300 ≤ status then
          ((Router.PutLoop selfId post key value rest store).1,
           ("remote PUT to " ++ node.host ++ " status " ++ toString status)
             :: (Router.PutLoop selfId post key value rest store).2)
        else Router.PutLoop selfId post key value rest store

/-- The error message Router.Put records for a failing remote replica,
distinguishing a transport failure from a non-success status. -/
def putErrMsg (post : NodeInfo → PostResult) (n : NodeInfo) : String :=
  match post n with
  | .transportErr => "remote PUT to " ++ n.host ++ " failed"
  | .resp status => "remote PUT to " ++ n.host ++ " status " ++ toString status

/-- Router.Put on an already-resolved replica list: error on an empty
list; otherwise run the loop and return an error exactly when error
messages were recorded. -/
def Router.Put (selfId : String) (post : NodeInfo → PostResult)
    (key value : String) (replicas : List NodeInfo) (store : Store) :
    Store × Option String :=
  if replicas.length = 0 then (store, some "no replicas for key")
  else
    ((Router.PutLoop selfId post key value replicas store).1,
     if (Router.PutLoop selfId post key value replicas store).2.length = 0
     then none
     else some ("replication errors: "
       ++ String.intercalate "; " (Router.PutLoop selfId post key value replicas store).2))

/-- Router.RebalanceLocalKeys over a snapshot of local keys, with the
ring resolved through replicasFor (the source calls
ring.GetReplicasForKey key replicationFactor) and remote PUT outcomes
given by the post environment (peer, key, value).  Per key: skip when the
key is gone; keep it when the replica list is empty or contains this
node; otherwise push the value through Router.Put and delete the local
copy only when that Put reported no error.  The context of the source is
never cancelled here: the claims speak about a scan that completes. -/
def Router.RebalanceLocalKeys (selfId : String)
    (replicasFor : String → List NodeInfo)
    (post : NodeInfo → String → String → PostResult) :
    Store → List String → Store
  | store, [] => store
  | store, key :: rest =>
    match Store.Get store key with
    | none => Router.RebalanceLocalKeys selfId replicasFor post store rest
    | some val =>
      if (replicasFor key).length = 0 then
        Router.RebalanceLocalKeys selfId replicasFor post store rest
      else if (replicasFor key).any (fun n => n.id == selfId) then
        Router.RebalanceLocalKeys selfId replicasFor post store rest
      else
        match (Router.Put selfId (fun n => post n key val) key val
                 (replicasFor key) store).2 with
        | some _ =>
          Router.RebalanceLocalKeys selfId replicasFor post
            (Router.Put selfId (fun n => post n key val) key val
              (replicasFor key) store).1 rest
        | none =>
          Router.RebalanceLocalKeys selfId replicasFor post
            (Store.Delete (Router.Put selfId (fun n => post n key val) key val
              (replicasFor key) store).1 key) rest

/-- HandleGetDistributed (package api), reduced to the resulting HTTP
status: 502 when Router.Get reported an error, 404 when it reported
not-found, 200 otherwise. -/
def HandleGetDistributed (res : String × Bool × Option String) : Nat :=
  match res.2.2 with
  | some _ => 502
  | none => if res.2.1 then 200 else 404

/-- Spec-modelled per the claim wording for C4: the definitive successful
answer of a single replica, if any.  A local replica answers with its
store hit; a remote replica answers with the response body of a status
below 300; a definitive not-found, any other status and a transport
failure give no answer. -/
def replicaAnswer (selfId : String) (store : Store)
    (fetch : NodeInfo → FetchResult) (key : String) (node : NodeInfo) :
    Option String :=
  if node.id = selfId then Store.Get store key
  else
    match fetch node with
    | .transportErr => none
    | .resp status body => if status < 300 then some body else none

/-- The claim predicate of C6: the key was attempted for relocation
during the scan (present with some value, nonempty replica list, this
node not among the replicas) and that Router.Put returned an error. -/
def putFailedDuringScan (selfId : String)
    (replicasFor : String → List NodeInfo)
    (post : NodeInfo → String → String → PostResult)
    (store : Store) (k : String) : Prop :=
  ∃ v, Store.Get store k = some v ∧ replicasFor k ≠ [] ∧
    (∀ n ∈ replicasFor k, n.id ≠ selfId) ∧
    (Router.Put selfId (fun n => post n k v) k v (replicasFor k) store).2 ≠ none

/-- White-space predicate of Go's unicode.IsSpace: the White_Space
code points. -/
def goSpace (c : Char) : Bool :=
  decide (c.toNat ∈ [0x9, 0xA, 0xB, 0xC, 0xD, 0x20, 0x85, 0xA0, 0x1680,
    0x2000, 0x2001, 0x2002, 0x2003, 0x2004, 0x2005, 0x2006, 0x2007,
    0x2008, 0x2009, 0x200A, 0x2028, 0x2029, 0x202F, 0x205F, 0x3000])

/-- strings.TrimSpace: drop white space from both ends. -/
def goTrimSpace (cs : List Char) : List Char :=
  ((cs.dropWhile goSpace).reverse.dropWhile goSpace).reverse

/-- strings.Split with a one-character separator: the pieces between the
separators, empty pieces kept. -/
def splitChar (sep : Char) : List Char → List (List Char)
  | [] => [[]]
  | c :: rest =>
    if c = sep then [] :: splitChar sep rest
    else
      match splitChar sep rest with
      | [] => [[c]]
      | p :: ps => (c :: p) :: ps

/-- strings.SplitN with separator "=" and limit 2: none when the entry
has no equals sign (the source then sees a one-element split and skips),
otherwise the parts before and after the first equals sign. -/
def splitN2Eq : List Char → Option (List Char × List Char)
  | [] => none
  | c :: rest =>
    if c = '=' then some ([], rest)
    else
      match splitN2Eq rest with
      | none => none
      | some (a, b) => some (c :: a, b)

/-- parseClusterNodes (package main): nil for the empty variable;
otherwise split on commas and, per entry, trim white space, skip empty
entries and entries without an equals sign, and append a NodeInfo built
from the parts around the first equals sign. -/
def parseClusterNodes (env : String) : List NodeInfo :=
  if env = "" then []
  else
    (splitChar ',' env.data).foldl
      (fun nodes p =>
        if goTrimSpace p = [] then nodes
        else
          match splitN2Eq (goTrimSpace p) with
          | none => nodes
          | some (a, b) => nodes ++ [{ id := ⟨a⟩, host := ⟨b⟩ }])
      []

/-- Spec-modelled per the claim wording for C10: what one CLUSTER_NODES
entry contributes.  An entry empty after trimming or lacking an equals
sign contributes nothing; an entry of the shape id=host contributes
exactly the NodeInfo with that id and host. -/
def clusterEntryNode (p : List Char) : Option NodeInfo :=
  if goTrimSpace p = [] then none
  else
    match splitN2Eq (goTrimSpace p) with
    | none => none
    | some (a, b) => some { id := ⟨a⟩, host := ⟨b⟩ }

end MiniCassandra

namespace MiniCassandra

theorem getD_mem : ∀ (l : List Nat) (i : Nat), i < l.length → l.getD i 0 ∈ l
  | x :: xs, 0, _ => List.mem_cons_self x xs
  | x :: xs, i+1, h =>
    List.mem_cons_of_mem x (getD_mem xs i (Nat.lt_of_succ_lt_succ h))

/-- walkStep preserves the walk invariant: the index stays in range, the
seen list stays duplicate-free and inside the id set covered by the
slots, its length stays equal to the replica count and bounded by the
size of that id set. -/
theorem walkStep_inv (hashes : List Nat) (hm : List (Nat × NodeInfo))
    (ids : List String)
    (hids : ∀ h ∈ hashes, ((mapLookup hm h).getD { id := "", host := "" }).id ∈ ids)
    (s : WalkState) (hidx : s.idx < hashes.length) (hnds : s.seen.Nodup)
    (hsub : s.seen ⊆ ids) (hlen : s.replicas.length = s.seen.length) :
    (walkStep hashes hm s).idx < hashes.length ∧
    (walkStep hashes hm s).seen.Nodup ∧
    (walkStep hashes hm s).seen ⊆ ids ∧
    (walkStep hashes hm s).replicas.length = (walkStep hashes hm s).seen.length := by
  have hpos : 0 < hashes.length := Nat.lt_of_le_of_lt (Nat.zero_le _) hidx
  have hmod : (s.idx + 1) % hashes.length < hashes.length := Nat.mod_lt _ hpos
  have hidmem :
      ((mapLookup hm (hashes.getD s.idx 0)).getD { id := "", host := "" }).id ∈ ids :=
    hids _ (getD_mem hashes s.idx hidx)
  unfold walkStep
  by_cases hseen :
      ((mapLookup hm (hashes.getD s.idx 0)).getD { id := "", host := "" }).id ∈ s.seen
  · simp only [hseen, if_pos]
    exact ⟨hmod, hnds, hsub, hlen⟩
  · simp only [hseen, if_neg, not_false_iff]
    refine ⟨hmod, List.nodup_cons.mpr ⟨hseen, hnds⟩,
      List.cons_subset.mpr ⟨hidmem, hsub⟩, ?_⟩
    simp [hlen]

/-- When every slot of the ring resolves to a node whose id lies in a
duplicate-free id set that is smaller than both the requested factor and
the size of the hash-to-node map, the walk can never finish: the replica
list can never reach the factor and the break can never fire. -/
theorem walk_none (hashes : List Nat) (hm : List (Nat × NodeInfo))
    (rFactor : Nat) (ids : List String)
    (hids : ∀ h ∈ hashes, ((mapLookup hm h).getD { id := "", host := "" }).id ∈ ids)
    (_hnd : ids.Nodup) (hlt : ids.length < rFactor) (hml : ids.length < hm.length) :
    ∀ (fuel : Nat) (s : WalkState), s.idx < hashes.length → s.seen.Nodup →
      s.seen ⊆ ids → s.replicas.length = s.seen.length →
      walk hashes hm rFactor fuel s = none := by
  intro fuel
  induction fuel with
  | zero => intro s _ _ _ _; rfl
  | succ n ih =>
    intro s hidx hnds hsub hlen
    have hseenle : s.seen.length ≤ ids.length := (hnds.subperm hsub).length_le
    have hrep : s.replicas.length < rFactor := by omega
    obtain ⟨hidx', hnds', hsub', hlen'⟩ := walkStep_inv hashes hm ids hids s hidx hnds hsub hlen
    have hseenle' : (walkStep hashes hm s).seen.length ≤ ids.length :=
      (hnds'.subperm hsub').length_le
    have hbreak : ¬ (walkStep hashes hm s).seen.length = hm.length := by omega
    rw [walk, if_pos hrep, if_neg hbreak]
    exact ih (walkStep hashes hm s) hidx' hnds' hsub' hlen'

/-- On a nonempty ring with positive rFactor, GetReplicasForKey is the
walk from the initial search index with the clamped factor. -/
theorem getReplicas_eq_walk (r : Ring) (key : String) (rFactor : Int)
    (fuel : Nat) (h1 : r.hashes.length ≠ 0) (h2 : 0 < rFactor) :
    r.GetReplicasForKey key rFactor fuel =
      walk r.hashes r.hashMap (min rFactor.toNat r.hashes.length) fuel
        { replicas := [], seen := [], idx := initIdx r.hashes (hashFn key) } := by
  have hc : ¬ (r.hashes.length = 0 ∨ rFactor ≤ 0) := by
    rintro (h | h)
    · exact h1 h
    · omega
  rw [Ring.GetReplicasForKey, if_neg hc]

/-- C1: the claim says the replica walk of GetReplicasForKey terminates
for every ring, key and rFactor because it breaks once the visited-id set
equals the count of physical nodes.  The break in the code compares the
visited-id count with the size of the hash-to-node map, which is the
virtual-slot count, so on the ring of one node with two virtual slots and
rFactor 2 the loop never finishes: the walk exhausts any amount of fuel. -/
theorem c1_getReplicasForKey_diverges (fuel : Nat) :
    (NewRing [{ id := "a", host := "ha" }] 2).GetReplicasForKey "k" 2 fuel = none := by
  rw [getReplicas_eq_walk _ _ _ _ (by decide) (by decide)]
  exact walk_none _ _ _ ["a"] (by decide) (by decide) (by decide) (by decide)
    fuel _ (by decide) (by decide) (List.nil_subset _) rfl

/-- C2: the claim says a single-node ring yields the one-element replica
list for every key and every rFactor of at least 1.  With one node,
three virtual slots and rFactor 2 the loop of the code never finishes
(the break compares against the slot count 3), so GetReplicasForKey
exhausts any amount of fuel instead of returning the one-element list. -/
theorem c2_singleNode_diverges (fuel : Nat) :
    (NewRing [{ id := "solo", host := "h" }] 3).GetReplicasForKey "x" 2 fuel = none := by
  rw [getReplicas_eq_walk _ _ _ _ (by decide) (by decide)]
  exact walk_none _ _ _ ["solo"] (by decide) (by decide) (by decide) (by decide)
    fuel _ (by decide) (by decide) (List.nil_subset _) rfl

/-- C3: the claim says the replica list always has length equal to the
minimum of rFactor and the number of distinct node ids, with no
duplicates.  On the ring of two nodes with two virtual slots each and
rFactor 3 the claimed length is 2, but the loop of the code never
finishes (the break compares against the slot count 4), so
GetReplicasForKey exhausts any amount of fuel. -/
theorem c3_boundedLength_diverges (fuel : Nat) :
    (NewRing [{ id := "a", host := "ha" }, { id := "b", host := "hb" }] 2).GetReplicasForKey
      "k" 3 fuel = none := by
  rw [getReplicas_eq_walk _ _ _ _ (by decide) (by decide)]
  exact walk_none _ _ _ ["a", "b"] (by decide) (by decide) (by decide) (by decide)
    fuel _ (by decide) (by decide) (List.nil_subset _) rfl

/-- The loop of Router.Get returns the first successful replica answer in
list order, or the not-found triple when no replica answers. -/
theorem getLoop_eq_findSome (selfId : String) (store : Store)
    (fetch : NodeInfo → FetchResult) (key : String) :
    ∀ replicas : List NodeInfo,
      Router.GetLoop selfId store fetch key replicas =
        match replicas.findSome? (replicaAnswer selfId store fetch key) with
        | some v => (v, true, none)
        | none => ("", false, none)
  | [] => rfl
  | node :: rest => by
    rw [Router.GetLoop, List.findSome?_cons]
    by_cases hloc : node.id = selfId
    · simp only [hloc, if_pos, replicaAnswer, if_pos rfl]
      cases Store.Get store key with
      | none => exact getLoop_eq_findSome selfId store fetch key rest
      | some v => rfl
    · simp only [replicaAnswer, hloc, if_neg, not_false_iff]
      cases hf : fetch node with
      | transportErr => exact getLoop_eq_findSome selfId store fetch key rest
      | resp status body =>
        by_cases h404 : status = 404
        · have : ¬ status < 300 := by omega
          simp only [h404, if_pos, this, if_neg, not_false_iff]
          exact getLoop_eq_findSome selfId store fetch key rest
        · by_cases hge : 300 ≤ status
          · have : ¬ status < 300 := by omega
            simp only [h404, if_neg, not_false_iff, hge, if_pos, this]
            exact getLoop_eq_findSome selfId store fetch key rest
          · have hlt : status < 300 := by omega
            simp only [h404, if_neg, not_false_iff, hge, hlt, if_pos]

/-- C4: Router.Get on a nonempty replica list tries the replicas in ring
order and returns, as found with no error, the value of the first replica
that answers successfully; a definitive not-found at a replica and a
transport error at a replica both make the walk continue; when the walk
exhausts all replicas the result is not-found with no error. -/
theorem c4_get_first_success (selfId : String) (store : Store)
    (fetch : NodeInfo → FetchResult) (key : String)
    (replicas : List NodeInfo) (h : replicas ≠ []) :
    Router.Get selfId store fetch key replicas =
      match replicas.findSome? (replicaAnswer selfId store fetch key) with
      | some v => (v, true, none)
      | none => ("", false, none) := by
  rw [Router.Get, if_neg (by simpa using List.length_pos.mpr h |>.ne')]
  exact getLoop_eq_findSome selfId store fetch key replicas

/-- Witness for C4 at a concrete input: a local replica holding the key
answers first. -/
theorem c4_witness :
    ([{ id := "a", host := "ha" }] : List NodeInfo) ≠ [] ∧
      Router.Get "a" [("k", "v")] (fun _ => FetchResult.transportErr) "k"
        [{ id := "a", host := "ha" }] = ("v", true, none) :=
  ⟨by decide, c4_get_first_success "a" [("k", "v")]
    (fun _ => FetchResult.transportErr) "k" [{ id := "a", host := "ha" }] (by decide)⟩

/-- Writing the same binding twice is the same as writing it once. -/
theorem store_put_put (s : Store) (k v : String) :
    Store.Put (Store.Put s k v) k v = Store.Put s k v := by
  simp [Store.Put, List.filter_filter]

/-- The store returned by the Router.Put loop: written exactly when some
replica in the list is local. -/
theorem putLoop_fst (selfId : String) (post : NodeInfo → PostResult)
    (key value : String) :
    ∀ (replicas : List NodeInfo) (store : Store),
      (Router.PutLoop selfId post key value replicas store).1 =
        if replicas.any (fun n => n.id == selfId) then Store.Put store key value
        else store
  | [], store => by simp [Router.PutLoop]
  | node :: rest, store => by
    rw [Router.PutLoop]
    by_cases hloc : node.id = selfId
    · rw [if_pos hloc, putLoop_fst selfId post key value rest]
      by_cases hr : rest.any (fun n => n.id == selfId)
      · simp [hr, hloc, store_put_put]
      · simp [hr, hloc]
    · rw [if_neg hloc]
      have hrec := putLoop_fst selfId post key value rest store
      have hany : (node :: rest).any (fun n => n.id == selfId) =
          rest.any (fun n => n.id == selfId) := by
        simp [hloc]
      cases post node with
      | transportErr => dsimp only; rw [hany]; exact hrec
      | resp status =>
        dsimp only
        by_cases hge : 300 ≤ status
        · rw [if_pos hge]; dsimp only; rw [hany]; exact hrec
        · rw [if_neg hge]; rw [hany]; exact hrec

/-- The error list returned by the Router.Put loop: one message per
failing remote replica, in replica order, independent of the store. -/
theorem putLoop_snd (selfId : String) (post : NodeInfo → PostResult)
    (key value : String) :
    ∀ (replicas : List NodeInfo) (store : Store),
      (Router.PutLoop selfId post key value replicas store).2 =
        (replicas.filter (fun n => n.id != selfId && postFailed (post n))).map
          (putErrMsg post)
  | [], store => by simp [Router.PutLoop]
  | node :: rest, store => by
    rw [Router.PutLoop, List.filter_cons]
    by_cases hloc : node.id = selfId
    · have hpred : (node.id != selfId && postFailed (post node)) = false := by
        simp [hloc]
      rw [if_pos hloc, hpred]
      simpa using putLoop_snd selfId post key value rest (Store.Put store key value)
    · have hbne : (node.id != selfId) = true := by simp [hloc]
      rw [if_neg hloc]
      cases hp : post node with
      | transportErr =>
        have hpred : (node.id != selfId && postFailed PostResult.transportErr) = true := by
          simp [hbne, postFailed]
        dsimp only
        rw [if_pos hpred, List.map_cons]
        have hmsg : putErrMsg post node = "remote PUT to " ++ node.host ++ " failed" := by
          simp [putErrMsg, hp]
        rw [hmsg]
        exact congrArg (List.cons _) (putLoop_snd selfId post key value rest store)
      | resp status =>
        dsimp only
        by_cases hge : 300 ≤ status
        · have hpred : (node.id != selfId && postFailed (PostResult.resp status)) = true := by
            simp [hbne, postFailed, hge]
          rw [if_pos hge, if_pos hpred, List.map_cons]
          have hmsg : putErrMsg post node =
              "remote PUT to " ++ node.host ++ " status " ++ toString status := by
            simp [putErrMsg, hp]
          rw [hmsg]
          exact congrArg (List.cons _) (putLoop_snd selfId post key value rest store)
        · have hpred : (node.id != selfId && postFailed (PostResult.resp status)) = false := by
            simp [postFailed, hge]
          rw [if_neg hge, hpred]
          simpa using putLoop_snd selfId post key value rest store

/-- On a nonempty replica list, Router.Put reports no error exactly when
no remote replica failed. -/
theorem put_err_iff (selfId : String) (post : NodeInfo → PostResult)
    (key value : String) (replicas : List NodeInfo) (store : Store)
    (h : replicas ≠ []) :
    ((Router.Put selfId post key value replicas store).2 = none ↔
      replicas.filter (fun n => n.id != selfId && postFailed (post n)) = []) := by
  rw [Router.Put, if_neg (by simpa using List.length_pos.mpr h |>.ne'), putLoop_snd]
  by_cases hf : replicas.filter (fun n => n.id != selfId && postFailed (post n)) = []
  · simp [hf]
  · have : (replicas.filter (fun n => n.id != selfId && postFailed (post n))).length ≠ 0 := by
      simpa [List.length_eq_zero] using hf
    simp [this, hf]

/-- C5: on a nonempty replica list, Router.Put writes the local store
exactly when some replica is local (unconditionally of remote outcomes),
attempts every replica, and returns an error exactly when at least one
remote replica recorded one. -/
theorem c5_put_attempts_all (selfId : String) (post : NodeInfo → PostResult)
    (key value : String) (replicas : List NodeInfo) (store : Store)
    (h : replicas ≠ []) :
    (Router.Put selfId post key value replicas store).1 =
      (if replicas.any (fun n => n.id == selfId) then Store.Put store key value
       else store) ∧
    ((Router.Put selfId post key value replicas store).2 ≠ none ↔
      ∃ n ∈ replicas, n.id ≠ selfId ∧ postFailed (post n) = true) := by
  constructor
  · rw [Router.Put, if_neg (by simpa using List.length_pos.mpr h |>.ne')]
    exact putLoop_fst selfId post key value replicas store
  · rw [ne_eq, put_err_iff selfId post key value replicas store h,
      List.filter_eq_nil_iff]
    push_neg
    simp [Bool.and_eq_true, bne_iff_ne]

/-- Witness for C5 at a concrete input: a local replica and a failing
remote replica, so the local write happens and an error is reported. -/
theorem c5_witness :
    ([{ id := "a", host := "x" }, { id := "b", host := "y" }] : List NodeInfo) ≠ [] ∧
      ((Router.Put "a" (fun _ => PostResult.resp 500) "k" "v"
          [{ id := "a", host := "x" }, { id := "b", host := "y" }] []).1 =
        (if ([{ id := "a", host := "x" }, { id := "b", host := "y" }] : List NodeInfo).any
              (fun n => n.id == "a") then Store.Put [] "k" "v"
         else []) ∧
      ((Router.Put "a" (fun _ => PostResult.resp 500) "k" "v"
          [{ id := "a", host := "x" }, { id := "b", host := "y" }] []).2 ≠ none ↔
        ∃ n ∈ ([{ id := "a", host := "x" }, { id := "b", host := "y" }] : List NodeInfo),
          n.id ≠ "a" ∧ postFailed ((fun _ => PostResult.resp 500) n) = true)) :=
  ⟨by decide, c5_put_attempts_all "a" (fun _ => PostResult.resp 500) "k" "v"
    [{ id := "a", host := "x" }, { id := "b", host := "y" }] [] (by decide)⟩

/-- Reading a key other than the filtered one is unaffected. -/
theorem get_filter_ne (key k : String) (h : k ≠ key) :
    ∀ s : Store, Store.Get (s.filter (fun p => p.1 != key)) k = Store.Get s k
  | [] => rfl
  | (a, b) :: t => by
    rw [List.filter_cons]
    by_cases ha : a = key
    · have : ((a, b).1 != key) = false := by simp [ha]
      rw [this]
      have : Store.Get ((a, b) :: t) k = Store.Get t k := by
        rw [Store.Get, if_neg (by rw [ha]; exact fun hh => h hh.symm)]
      rw [this]
      simpa using get_filter_ne key k h t
    · have : ((a, b).1 != key) = true := by simp [ha]
      rw [this]
      show Store.Get ((a, b) :: t.filter (fun p => p.1 != key)) k = Store.Get ((a, b) :: t) k
      rw [Store.Get, Store.Get]
      by_cases hak : a = k
      · rw [if_pos hak, if_pos hak]
      · rw [if_neg hak, if_neg hak]
        exact get_filter_ne key k h t

/-- Reading the filtered key always misses. -/
theorem get_filter_self (key : String) :
    ∀ s : Store, Store.Get (s.filter (fun p => p.1 != key)) key = none
  | [] => rfl
  | (a, b) :: t => by
    rw [List.filter_cons]
    by_cases ha : a = key
    · have : ((a, b).1 != key) = false := by simp [ha]
      rw [this]
      simpa using get_filter_self key t
    · have : ((a, b).1 != key) = true := by simp [ha]
      rw [this]
      show Store.Get ((a, b) :: t.filter (fun p => p.1 != key)) key = none
      rw [Store.Get, if_neg ha]
      exact get_filter_self key t

/-- Characterisation of Get after Put. -/
theorem get_put (s : Store) (key value k : String) :
    Store.Get (Store.Put s key value) k =
      if key = k then some value else Store.Get s k := by
  rw [Store.Put]
  show (if key = k then some value else Store.Get (s.filter (fun p => p.1 != key)) k) =
    if key = k then some value else Store.Get s k
  by_cases h : key = k
  · rw [if_pos h, if_pos h]
  · rw [if_neg h, if_neg h]
    exact get_filter_ne key k (fun hh => h hh.symm) s

/-- Characterisation of Get after Delete. -/
theorem get_delete (s : Store) (key k : String) :
    Store.Get (Store.Delete s key) k =
      if k = key then none else Store.Get s k := by
  rw [Store.Delete]
  by_cases h : k = key
  · rw [if_pos h, h]
    exact get_filter_self key s
  · rw [if_neg h]
    exact get_filter_ne key k h s

/-- C9: LocalStore operations only touch their own key: a Put leaves
every other key unchanged and makes its key read back the new value; a
Delete leaves every other key unchanged and makes its key read back as
absent. -/
theorem c9_store_frame (s : Store) (k k' v : String) (h : k' ≠ k) :
    Store.Get (Store.Put s k v) k' = Store.Get s k' ∧
    Store.Get (Store.Put s k v) k = some v ∧
    Store.Get (Store.Delete s k) k' = Store.Get s k' ∧
    Store.Get (Store.Delete s k) k = none := by
  refine ⟨?_, ?_, ?_, ?_⟩
  · rw [get_put, if_neg (fun hh => h hh.symm)]
  · rw [get_put, if_pos rfl]
  · rw [get_delete, if_neg h]
  · rw [get_delete, if_pos rfl]

/-- Router.Put leaves the local store untouched when no replica in the
list is local. -/
theorem router_put_fst_no_local (selfId : String) (post' : NodeInfo → PostResult)
    (key value : String) (replicas : List NodeInfo) (store : Store)
    (h : replicas ≠ []) (hany : replicas.any (fun n => n.id == selfId) = false) :
    (Router.Put selfId post' key value replicas store).1 = store := by
  rw [Router.Put, if_neg (by simpa using List.length_pos.mpr h |>.ne')]
  dsimp only
  rw [putLoop_fst, hany]
  simp

/-- The rebalance scan only ever deletes local keys: afterwards a key
reads back either unchanged or as absent. -/
theorem rebalance_get_or_none (selfId : String)
    (replicasFor : String → List NodeInfo)
    (post : NodeInfo → String → String → PostResult) :
    ∀ (keys : List String) (store : Store) (k : String),
      Store.Get (Router.RebalanceLocalKeys selfId replicasFor post store keys) k
          = Store.Get store k ∨
      Store.Get (Router.RebalanceLocalKeys selfId replicasFor post store keys) k
          = none := by
  intro keys
  induction keys with
  | nil => intro store k; exact Or.inl rfl
  | cons key rest ih =>
    intro store k
    rw [Router.RebalanceLocalKeys]
    cases hget : Store.Get store key with
    | none => exact ih store k
    | some val =>
      dsimp only
      by_cases h0 : (replicasFor key).length = 0
      · rw [if_pos h0]; exact ih store k
      · rw [if_neg h0]
        by_cases hany : (replicasFor key).any (fun n => n.id == selfId) = true
        · rw [if_pos hany]; exact ih store k
        · rw [if_neg hany]
          have hne : replicasFor key ≠ [] :=
            fun hh => h0 (by rw [hh]; rfl)
          have hfst : (Router.Put selfId (fun n => post n key val) key val
              (replicasFor key) store).1 = store :=
            router_put_fst_no_local selfId _ key val (replicasFor key) store hne
              (Bool.eq_false_iff.mpr hany)
          cases hput : (Router.Put selfId (fun n => post n key val) key val
              (replicasFor key) store).2 with
          | some e =>
            dsimp only
            rw [hfst]
            exact ih store k
          | none =>
            dsimp only
            rw [hfst]
            rcases ih (Store.Delete store key) k with h | h
            · rw [h, get_delete]
              by_cases hk : k = key
              · rw [if_pos hk]; exact Or.inr rfl
              · rw [if_neg hk]; exact Or.inl rfl
            · exact Or.inr h

/-- A key scanned by the rebalance loop that is still present afterwards
had an empty replica list, or a local replica, or a failing relocation
Put: the source branch structure, phrased on the loop-entry store. -/
theorem rebalance_scanned (selfId : String)
    (replicasFor : String → List NodeInfo)
    (post : NodeInfo → String → String → PostResult) :
    ∀ (keys : List String) (store : Store) (k : String), k ∈ keys →
      Store.Get (Router.RebalanceLocalKeys selfId replicasFor post store keys) k
          ≠ none →
      replicasFor k = [] ∨ (∃ n ∈ replicasFor k, n.id = selfId) ∨
      (∃ v, Store.Get store k = some v ∧ (∀ n ∈ replicasFor k, n.id ≠ selfId) ∧
        (replicasFor k).filter
          (fun n => n.id != selfId && postFailed (post n k v)) ≠ []) := by
  intro keys
  induction keys with
  | nil => intro store k hk; exact absurd hk (List.not_mem_nil k)
  | cons key rest ih =>
    intro store k hk hne
    rw [Router.RebalanceLocalKeys] at hne
    cases hget : Store.Get store key with
    | none =>
      rw [hget] at hne
      dsimp only at hne
      rcases List.mem_cons.mp hk with rfl | hk'
      · exfalso
        rcases rebalance_get_or_none selfId replicasFor post rest store k with h | h
        · rw [h, hget] at hne; exact hne rfl
        · rw [h] at hne; exact hne rfl
      · exact ih store k hk' hne
    | some val =>
      rw [hget] at hne
      dsimp only at hne
      by_cases h0 : (replicasFor key).length = 0
      · rw [if_pos h0] at hne
        rcases List.mem_cons.mp hk with rfl | hk'
        · exact Or.inl (List.length_eq_zero.mp h0)
        · exact ih store k hk' hne
      · rw [if_neg h0] at hne
        by_cases hany : (replicasFor key).any (fun n => n.id == selfId) = true
        · rw [if_pos hany] at hne
          rcases List.mem_cons.mp hk with rfl | hk'
          · refine Or.inr (Or.inl ?_)
            rcases List.any_eq_true.mp hany with ⟨n, hn, hid⟩
            exact ⟨n, hn, by simpa using hid⟩
          · exact ih store k hk' hne
        · rw [if_neg hany] at hne
          have hrne : replicasFor key ≠ [] :=
            fun hh => h0 (by rw [hh]; rfl)
          have hany' : (replicasFor key).any (fun n => n.id == selfId) = false :=
            Bool.eq_false_iff.mpr hany
          have hfst : (Router.Put selfId (fun n => post n key val) key val
              (replicasFor key) store).1 = store :=
            router_put_fst_no_local selfId _ key val (replicasFor key) store hrne hany'
          cases hput : (Router.Put selfId (fun n => post n key val) key val
              (replicasFor key) store).2 with
          | some e =>
            rw [hput] at hne
            dsimp only at hne
            rw [hfst] at hne
            rcases List.mem_cons.mp hk with rfl | hk'
            · refine Or.inr (Or.inr ⟨val, hget, ?_, ?_⟩)
              · intro n hn
                have := List.any_eq_false.mp hany' n hn
                simpa using this
              · intro hfil
                have := (put_err_iff selfId (fun n => post n k val) k val
                  (replicasFor k) store hrne).mpr hfil
                rw [hput] at this
                exact Option.noConfusion this
            · exact ih store k hk' hne
          | none =>
            rw [hput] at hne
            dsimp only at hne
            rw [hfst] at hne
            by_cases hkk : k = key
            · exfalso
              rcases rebalance_get_or_none selfId replicasFor post rest
                (Store.Delete store key) k with h | h
              · rw [h, get_delete, if_pos hkk] at hne; exact hne rfl
              · rw [h] at hne; exact hne rfl
            · have hk' : k ∈ rest := (List.mem_cons.mp hk).resolve_left hkk
              rcases ih (Store.Delete store key) k hk' hne with h | h | ⟨v, hv, hall, hfil⟩
              · exact Or.inl h
              · exact Or.inr (Or.inl h)
              · rw [get_delete, if_neg hkk] at hv
                exact Or.inr (Or.inr ⟨v, hv, hall, hfil⟩)

/-- A key scanned by the rebalance loop whose relocation conditions hold
and whose relocation records no error is deleted locally. -/
theorem rebalance_deletes (selfId : String)
    (replicasFor : String → List NodeInfo)
    (post : NodeInfo → String → String → PostResult) :
    ∀ (keys : List String) (store : Store) (k v : String), k ∈ keys →
      Store.Get store k = some v → replicasFor k ≠ [] →
      (replicasFor k).any (fun n => n.id == selfId) = false →
      (replicasFor k).filter (fun n => n.id != selfId && postFailed (post n k v)) = [] →
      Store.Get (Router.RebalanceLocalKeys selfId replicasFor post store keys) k
        = none := by
  intro keys
  induction keys with
  | nil => intro store k v hk; exact absurd hk (List.not_mem_nil k)
  | cons key rest ih =>
    intro store k v hk hv hne hany hfil
    rw [Router.RebalanceLocalKeys]
    by_cases hkk : k = key
    · subst hkk
      rw [hv]
      dsimp only
      rw [if_neg (fun h => hne (List.length_eq_zero.mp h))]
      rw [if_neg (by rw [hany]; exact Bool.false_ne_true)]
      have hput2 : (Router.Put selfId (fun n => post n k v) k v
          (replicasFor k) store).2 = none :=
        (put_err_iff selfId (fun n => post n k v) k v (replicasFor k) store hne).mpr hfil
      rw [hput2]
      dsimp only
      rw [router_put_fst_no_local selfId _ k v (replicasFor k) store hne hany]
      rcases rebalance_get_or_none selfId replicasFor post rest
        (Store.Delete store k) k with h | h
      · rw [h, get_delete, if_pos rfl]
      · exact h
    · have hk' : k ∈ rest := (List.mem_cons.mp hk).resolve_left hkk
      cases hget : Store.Get store key with
      | none => exact ih store k v hk' hv hne hany hfil
      | some val =>
        dsimp only
        by_cases h0 : (replicasFor key).length = 0
        · rw [if_pos h0]; exact ih store k v hk' hv hne hany hfil
        · rw [if_neg h0]
          by_cases hany2 : (replicasFor key).any (fun n => n.id == selfId) = true
          · rw [if_pos hany2]; exact ih store k v hk' hv hne hany hfil
          · rw [if_neg hany2]
            have hrne : replicasFor key ≠ [] :=
              fun hh => h0 (by rw [hh]; rfl)
            have hfst : (Router.Put selfId (fun n => post n key val) key val
                (replicasFor key) store).1 = store :=
              router_put_fst_no_local selfId _ key val (replicasFor key) store hrne
                (Bool.eq_false_iff.mpr hany2)
            cases hput : (Router.Put selfId (fun n => post n key val) key val
                (replicasFor key) store).2 with
            | some e =>
              dsimp only
              rw [hfst]
              exact ih store k v hk' hv hne hany hfil
            | none =>
              dsimp only
              rw [hfst]
              exact ih (Store.Delete store key) k v hk'
                (by rw [get_delete, if_neg hkk]; exact hv) hne hany hfil

/-- C6 counterexample: with an empty ring the replica list of every key
is empty and the scan keeps the key without attempting any Put, so a kept
key falsifies the claimed disjunction (this node among the replicas, or a
failing Router.Put during the scan). -/
theorem c6_counterexample :
    Store.Get
      (Router.RebalanceLocalKeys "a"
        (fun k => ((NewRing [] 1).GetReplicasForKey k 3 1).getD [])
        (fun _ _ _ => PostResult.transportErr) [("k", "v")] ["k"]) "k" = some "v" ∧
    ¬ ("a" ∈ ((((NewRing [] 1).GetReplicasForKey "k" 3 1).getD []).map NodeInfo.id) ∨
       putFailedDuringScan "a"
         (fun k => ((NewRing [] 1).GetReplicasForKey k 3 1).getD [])
         (fun _ _ _ => PostResult.transportErr) [("k", "v")] "k") := by
  constructor
  · decide
  · rintro (hmem | ⟨v, _, hrne, _, _⟩)
    · exact absurd hmem (by decide)
    · exact hrne (by decide)

/-- C6 amended: after a completed rebalance scan over a snapshot covering
the stored keys, every key still present in the local store had an empty
replica list (kept untouched), or has this node among its replicas, or
had its relocation Router.Put fail during the scan; and every key whose
relocation Put was attempted and succeeded is deleted locally. -/
theorem c6_amended_rebalance_safety (selfId : String)
    (replicasFor : String → List NodeInfo)
    (post : NodeInfo → String → String → PostResult)
    (store : Store) (keys : List String)
    (hcover : ∀ k, Store.Get store k ≠ none → k ∈ keys) :
    (∀ k, Store.Get (Router.RebalanceLocalKeys selfId replicasFor post store keys) k
        ≠ none →
      replicasFor k = [] ∨ selfId ∈ (replicasFor k).map NodeInfo.id ∨
      putFailedDuringScan selfId replicasFor post store k) ∧
    (∀ k v, Store.Get store k = some v → replicasFor k ≠ [] →
      selfId ∉ (replicasFor k).map NodeInfo.id →
      (Router.Put selfId (fun n => post n k v) k v (replicasFor k) store).2 = none →
      Store.Get (Router.RebalanceLocalKeys selfId replicasFor post store keys) k
        = none) := by
  constructor
  · intro k hne
    have hstore : Store.Get store k ≠ none := by
      rcases rebalance_get_or_none selfId replicasFor post keys store k with h | h
      · rw [h] at hne; exact hne
      · exact absurd h hne
    rcases rebalance_scanned selfId replicasFor post keys store k (hcover k hstore) hne
      with h | ⟨n, hn, hid⟩ | ⟨v, hv, hall, hfil⟩
    · exact Or.inl h
    · exact Or.inr (Or.inl (List.mem_map.mpr ⟨n, hn, hid⟩))
    · refine Or.inr (Or.inr ⟨v, hv, ?_, hall, ?_⟩)
      · intro hh
        exact hfil (by rw [hh]; rfl)
      · intro hput
        have hrne : replicasFor k ≠ [] := fun hh => hfil (by rw [hh]; rfl)
        exact hfil ((put_err_iff selfId (fun n => post n k v) k v
          (replicasFor k) store hrne).mp hput)
  · intro k v hv hrne hnotin hput
    have hany : (replicasFor k).any (fun n => n.id == selfId) = false := by
      rw [List.any_eq_false]
      intro n hn
      simp only [beq_iff_eq]
      intro hid
      exact hnotin (List.mem_map.mpr ⟨n, hn, hid⟩)
    exact rebalance_deletes selfId replicasFor post keys store k v
      (hcover k (by rw [hv]; exact Option.noConfusion))
      hv hrne hany
      ((put_err_iff selfId (fun n => post n k v) k v (replicasFor k) store hrne).mp hput)

/-- Witness for C6 amended at a concrete input: one key whose only
replica is a remote peer that accepts the relocation, so the scan deletes
the key locally. -/
theorem c6_witness :
    (∀ k, Store.Get [("k", "v")] k ≠ none → k ∈ ["k"]) ∧
      ((∀ k, Store.Get (Router.RebalanceLocalKeys "a"
            (fun _ => ([{ id := "b", host := "hb" }] : List NodeInfo))
            (fun _ _ _ => PostResult.resp 200) [("k", "v")] ["k"]) k ≠ none →
          ([{ id := "b", host := "hb" }] : List NodeInfo) = [] ∨
          "a" ∈ ([{ id := "b", host := "hb" }] : List NodeInfo).map NodeInfo.id ∨
          putFailedDuringScan "a"
            (fun _ => ([{ id := "b", host := "hb" }] : List NodeInfo))
            (fun _ _ _ => PostResult.resp 200) [("k", "v")] k) ∧
       (∀ k v, Store.Get [("k", "v")] k = some v →
          ([{ id := "b", host := "hb" }] : List NodeInfo) ≠ [] →
          "a" ∉ ([{ id := "b", host := "hb" }] : List NodeInfo).map NodeInfo.id →
          (Router.Put "a" (fun _ => PostResult.resp 200) k v
            [{ id := "b", host := "hb" }] [("k", "v")]).2 = none →
          Store.Get (Router.RebalanceLocalKeys "a"
            (fun _ => ([{ id := "b", host := "hb" }] : List NodeInfo))
            (fun _ _ _ => PostResult.resp 200) [("k", "v")] ["k"]) k = none)) := by
  have hcov : ∀ k, Store.Get [("k", "v")] k ≠ none → k ∈ ["k"] := by
    intro k h
    rw [Store.Get] at h
    by_cases hk : "k" = k
    · rw [← hk]; exact List.mem_cons_self "k" []
    · rw [if_neg hk] at h; exact absurd rfl h
  exact ⟨hcov, c6_amended_rebalance_safety "a"
    (fun _ => ([{ id := "b", host := "hb" }] : List NodeInfo))
    (fun _ _ _ => PostResult.resp 200) [("k", "v")] ["k"] hcov⟩

/-- Witness for C9 at a concrete input. -/
theorem c9_witness :
    ("b" : String) ≠ "a" ∧
      (Store.Get (Store.Put [("x", "1")] "a" "v") "b" = Store.Get [("x", "1")] "b" ∧
       Store.Get (Store.Put [("x", "1")] "a" "v") "a" = some "v" ∧
       Store.Get (Store.Delete [("x", "1")] "a") "b" = Store.Get [("x", "1")] "b" ∧
       Store.Get (Store.Delete [("x", "1")] "a") "a" = none) :=
  ⟨by decide, c9_store_frame [("x", "1")] "a" "b" "v" (by decide)⟩

/-- C7 counterexample: one remote replica failing with a transport error
exhausts the replica walk; Router.Get reports not-found with no error and
the handler answers 404, not the claimed 502. -/
theorem c7_counterexample :
    HandleGetDistributed (Router.Get "a" [] (fun _ => FetchResult.transportErr) "k"
      [{ id := "b", host := "hb" }]) = 404 ∧
    HandleGetDistributed (Router.Get "a" [] (fun _ => FetchResult.transportErr) "k"
      [{ id := "b", host := "hb" }]) ≠ 502 := by
  constructor <;> decide

/-- C7 amended: the GET handler answers 502 exactly when the replica list
is empty; a walk that exhausts a nonempty replica list, whether through
transport failures or definitive not-found answers, yields 404. -/
theorem c7_amended_status_codes (selfId : String) (store : Store)
    (fetch : NodeInfo → FetchResult) (key : String) (replicas : List NodeInfo) :
    (HandleGetDistributed (Router.Get selfId store fetch key replicas) = 502 ↔
      replicas = []) ∧
    (replicas ≠ [] →
      replicas.findSome? (replicaAnswer selfId store fetch key) = none →
      HandleGetDistributed (Router.Get selfId store fetch key replicas) = 404) := by
  by_cases h : replicas = []
  · subst h
    exact ⟨⟨fun _ => rfl, fun _ => rfl⟩, fun hne _ => absurd rfl hne⟩
  · have hR : Router.Get selfId store fetch key replicas =
        match replicas.findSome? (replicaAnswer selfId store fetch key) with
        | some v => (v, true, none)
        | none => ("", false, none) := by
      rw [Router.Get, if_neg (by simpa using List.length_pos.mpr h |>.ne')]
      exact getLoop_eq_findSome selfId store fetch key replicas
    rw [hR]
    cases hf : replicas.findSome? (replicaAnswer selfId store fetch key) with
    | some v =>
      refine ⟨⟨fun h502 => ?_, fun h0 => absurd h0 h⟩, fun _ hf0 => ?_⟩
      · simp [HandleGetDistributed] at h502
      · exact Option.noConfusion hf0
    | none =>
      refine ⟨⟨fun h502 => ?_, fun h0 => absurd h0 h⟩, fun _ _ => rfl⟩
      simp [HandleGetDistributed] at h502

/-- Witness for C7 amended at a concrete input: one remote replica, all
transport failures, handler answers 404 and not 502. -/
theorem c7_witness :
    (([{ id := "b", host := "hb" }] : List NodeInfo) ≠ []) ∧
    (([{ id := "b", host := "hb" }] : List NodeInfo).findSome?
        (replicaAnswer "a" [] (fun _ => FetchResult.transportErr) "k") = none) ∧
    ((HandleGetDistributed (Router.Get "a" [] (fun _ => FetchResult.transportErr) "k"
        [{ id := "b", host := "hb" }]) = 502 ↔
      ([{ id := "b", host := "hb" }] : List NodeInfo) = []) ∧
     (([{ id := "b", host := "hb" }] : List NodeInfo) ≠ [] →
       ([{ id := "b", host := "hb" }] : List NodeInfo).findSome?
         (replicaAnswer "a" [] (fun _ => FetchResult.transportErr) "k") = none →
       HandleGetDistributed (Router.Get "a" [] (fun _ => FetchResult.transportErr) "k"
         [{ id := "b", host := "hb" }]) = 404)) :=
  ⟨by decide, by decide,
   c7_amended_status_codes "a" [] (fun _ => FetchResult.transportErr) "k"
     [{ id := "b", host := "hb" }]⟩

/-- Inserting into a sorted list is a permutation of consing. -/
theorem insertSorted_perm (x : Nat) : ∀ l : List Nat,
    (insertSorted x l).Perm (x :: l)
  | [] => List.Perm.refl _
  | y :: ys => by
    rw [insertSorted]
    by_cases h : x ≤ y
    · rw [if_pos h]
    · rw [if_neg h]
      exact (List.Perm.cons y (insertSorted_perm x ys)).trans (List.Perm.swap x y ys)

/-- The insertion sort permutes its input. -/
theorem sortNat_perm : ∀ l : List Nat, (sortNat l).Perm l
  | [] => List.Perm.refl _
  | x :: xs =>
    (insertSorted_perm x (sortNat xs)).trans (List.Perm.cons x (sortNat_perm xs))

/-- The slot loop of addNodeNoLock appends exactly the hashes of the
virtual keys id#i. -/
theorem foldl_addSlot_hashes (n : NodeInfo) :
    ∀ (l : List Nat) (r : Ring),
      (l.foldl (addSlot n) r).hashes =
        r.hashes ++ l.map (fun i => hashFn (n.id ++ "#" ++ toString i))
  | [], r => by simp
  | i :: is, r => by
    rw [List.foldl_cons, foldl_addSlot_hashes n is (addSlot n r i), List.map_cons]
    simp [addSlot, List.append_assoc]

/-- The slot loop of addNodeNoLock keeps the virtual-node count. -/
theorem foldl_addSlot_vNodes (n : NodeInfo) :
    ∀ (l : List Nat) (r : Ring), (l.foldl (addSlot n) r).vNodes = r.vNodes
  | [], _ => rfl
  | i :: is, r => by
    rw [List.foldl_cons, foldl_addSlot_vNodes n is]
    rfl

/-- addNodeNoLock appends the vNodes virtual-slot hashes of the node. -/
theorem addNode_hashes (r : Ring) (n : NodeInfo) :
    (r.addNodeNoLock n).hashes =
      r.hashes ++ (List.range r.vNodes).map
        (fun i => hashFn (n.id ++ "#" ++ toString i)) :=
  foldl_addSlot_hashes n (List.range r.vNodes) r

/-- addNodeNoLock keeps the virtual-node count. -/
theorem addNode_vNodes (r : Ring) (n : NodeInfo) :
    (r.addNodeNoLock n).vNodes = r.vNodes :=
  foldl_addSlot_vNodes n (List.range r.vNodes) r

/-- The node loop of NewRing accumulates every node's virtual-slot
hashes in order. -/
theorem foldl_addNodes_hashes :
    ∀ (nodes : List NodeInfo) (r : Ring),
      ((nodes.foldl (fun r n => r.addNodeNoLock n) r)).hashes =
        r.hashes ++ nodes.flatMap (fun n => (List.range r.vNodes).map
          (fun i => hashFn (n.id ++ "#" ++ toString i)))
  | [], r => by simp
  | n :: ns, r => by
    rw [List.foldl_cons, foldl_addNodes_hashes ns (r.addNodeNoLock n),
      addNode_vNodes, addNode_hashes, List.flatMap_cons, List.append_assoc]

/-- C8: the hash of the source is 32-bit FNV-1a over UTF-8 bytes, with
the standard test vector on the string foo; and the slots of a fresh ring
are exactly the hashes of the virtual keys id#i with the literal
separator, one per node and slot index below vNodes. -/
theorem c8_hash_fnv1a :
    hashFn "foo" = 0xA9F37ED7 ∧
    ∀ (nodes : List NodeInfo) (v : Nat),
      (NewRing nodes v).hashes.Perm
        (nodes.flatMap (fun n => (List.range v).map
          (fun i => hashFn (n.id ++ "#" ++ toString i)))) := by
  refine ⟨by decide, ?_⟩
  intro nodes v
  have h1 : (NewRing nodes v).hashes =
      sortNat ((nodes.foldl (fun r n => Ring.addNodeNoLock r n)
        ({ vNodes := v, hashes := [], hashMap := [] } : Ring)).hashes) := rfl
  rw [h1, foldl_addNodes_hashes]
  dsimp only
  rw [List.nil_append]
  exact sortNat_perm _

/-- The entry loop of parseClusterNodes is the filterMap of the
per-entry interpretation, keeping input order. -/
theorem foldl_entry_eq_filterMap :
    ∀ (l : List (List Char)) (acc : List NodeInfo),
      l.foldl (fun nodes p =>
        if goTrimSpace p = [] then nodes
        else
          match splitN2Eq (goTrimSpace p) with
          | none => nodes
          | some (a, b) => nodes ++ [{ id := ⟨a⟩, host := ⟨b⟩ }]) acc
      = acc ++ l.filterMap clusterEntryNode
  | [], acc => by simp
  | p :: ps, acc => by
    rw [List.foldl_cons, List.filterMap_cons]
    by_cases h : goTrimSpace p = []
    · have hcn : clusterEntryNode p = none := by rw [clusterEntryNode, if_pos h]
      rw [if_pos h, hcn]
      exact foldl_entry_eq_filterMap ps acc
    · rw [if_neg h]
      cases hsp : splitN2Eq (goTrimSpace p) with
      | none =>
        have hcn : clusterEntryNode p = none := by
          rw [clusterEntryNode, if_neg h, hsp]
        rw [hcn]
        exact foldl_entry_eq_filterMap ps acc
      | some ab =>
        obtain ⟨a, b⟩ := ab
        have hcn : clusterEntryNode p = some { id := ⟨a⟩, host := ⟨b⟩ } := by
          rw [clusterEntryNode, if_neg h, hsp]
        rw [hcn]
        dsimp only
        have hih := foldl_entry_eq_filterMap ps (acc ++ [{ id := ⟨a⟩, host := ⟨b⟩ }])
        rw [hih]
        simp

/-- C10: parseClusterNodes is total and skips exactly the entries that
trim to empty or lack an equals sign; every other entry contributes one
NodeInfo with the id before and the host after the first equals sign, in
input order. -/
theorem c10_parseClusterNodes_total (env : String) :
    parseClusterNodes env =
      (if env = "" then [] else splitChar ',' env.data).filterMap
        clusterEntryNode := by
  rw [parseClusterNodes]
  by_cases h : env = ""
  · rw [if_pos h, if_pos h]
    rfl
  · rw [if_neg h, if_neg h]
    rw [foldl_entry_eq_filterMap (splitChar ',' env.data) []]
    rw [List.nil_append]

end MiniCassandra
